import Mathlib

set_option autoImplicit false
set_option linter.unusedVariables false

/-!
Shallow embedding of the price-tracking bot in src/bot.py.

Python strings are modelled as lists of characters, machine floats as
rationals, timestamps as integers, and the dynamically-typed JSON values the
handlers receive as small inductive types.  Each definition is translated from
the named function of the source file.
-/

/-! ### Price Normalizer: parse_price (src/bot.py lines 165-202) -/

/-- The character class of the regex fragment [\d\s\.,] used by the
re.search call in parse_price. -/
def isRunChar (c : Char) : Bool :=
  c.isDigit || c.isWhitespace || c = '.' || c = ','

/-- Drop the trailing characters that are not digits: the regex match
d [d s . ,]* d is greedy, so it extends to the last digit of the run. -/
def truncAtLastDigit (l : List Char) : List Char :=
  (l.reverse.dropWhile (fun c => !c.isDigit)).reverse

/-- Auxiliary scan modelling re.search of the pattern d [d s . ,]* d :
find the leftmost digit, take the maximal run of class characters from it,
cut the run at its last digit; a run holding a single digit cannot match
(the pattern needs two digits), so the search resumes after the run.
Fuel-indexed so the recursion is structural; fuel = length suffices. -/
def findRunAux : Nat → List Char → Option (List Char)
  | 0, _ => none
  | _, [] => none
  | fuel+1, c :: rest =>
    if c.isDigit then
      let run := (c :: rest).takeWhile isRunChar
      let m := truncAtLastDigit run
      if 2 ≤ m.length then some m
      else findRunAux fuel (List.drop run.length (c :: rest))
    else findRunAux fuel rest

/-- re.search of the digit-run pattern over the whole text. -/
def findDigitRun (l : List Char) : Option (List Char) :=
  findRunAux l.length l

/-- Python str.strip: drop whitespace from both ends. -/
def pyStrip (l : List Char) : List Char :=
  ((l.dropWhile Char.isWhitespace).reverse.dropWhile Char.isWhitespace).reverse

/-- text.replace(the non-breaking space with a plain space) from parse_price. -/
def nbspToSpace (l : List Char) : List Char :=
  l.map (fun c => if c = Char.ofNat 160 then ' ' else c)

/-- The extraction phase of parse_price: normalize non-breaking spaces,
strip, give up on the empty text, search for the digit run, and remove the
plain spaces from the match (removing plain spaces). -/
def extract_cleaned (text : List Char) : Option (List Char) :=
  let t := pyStrip (nbspToSpace text)
  if t = [] then none
  else
    match findDigitRun t with
    | none => none
    | some m => some (m.filter (fun c => c != ' '))

/-- Replacing each comma with a dot, acting on one character. -/
def swapComma (c : Char) : Char := if c = ',' then '.' else c

/-- Numeric value of a list of decimal digits. -/
def digitsVal (l : List Char) : Nat :=
  l.foldl (fun a c => a * 10 + (c.toNat - 48)) 0

/-- Python float() restricted to the strings reachable in parse_price
(digits, dots, and stray whitespace): it succeeds exactly on
digits, digits.digits, digits., or .digits (at least one digit overall).
This stage returns the parts (integer-part value, fraction value,
fraction length); the numeric interpretation is ratOfParts below. -/
def py_float_parts (l : List Char) : Option (Nat × Nat × Nat) :=
  let intPart := l.takeWhile (fun c => c != '.')
  let rest := l.dropWhile (fun c => c != '.')
  match rest with
  | [] =>
    if intPart ≠ [] ∧ intPart.all Char.isDigit then
      some (digitsVal intPart, 0, 0)
    else none
  | _ :: frac =>
    if (intPart ≠ [] ∨ frac ≠ []) ∧ intPart.all Char.isDigit ∧ frac.all Char.isDigit then
      some (digitsVal intPart, digitsVal frac, frac.length)
    else none

/-- The rational a decimal string with the given parts denotes. -/
def ratOfParts (p : Nat × Nat × Nat) : ℚ :=
  (p.1 : ℚ) + (p.2.1 : ℚ) / 10 ^ p.2.2

/-- Python float() on the strings reachable in parse_price, as a rational. -/
def py_float (l : List Char) : Option ℚ :=
  (py_float_parts l).map ratOfParts

/-- Python str.rfind: index of the last occurrence, -1 when absent. -/
def rfindIdx : List Char → Char → ℤ
  | [], _ => -1
  | a :: l, c =>
    if 0 ≤ rfindIdx l c then rfindIdx l c + 1
    else if a = c then 0 else -1

/-- The separator logic of parse_price applied to the cleaned run:
both separators present: the one with the larger rfind index is the decimal
separator, the other is removed; only commas present: commas become dots;
otherwise the string goes to float() unchanged. -/
def parse_cleaned_parts (cleaned : List Char) : Option (Nat × Nat × Nat) :=
  if ',' ∈ cleaned ∧ '.' ∈ cleaned then
    if rfindIdx cleaned '.' < rfindIdx cleaned ',' then
      py_float_parts ((cleaned.filter (fun c => c != '.')).map swapComma)
    else
      py_float_parts (cleaned.filter (fun c => c != ','))
  else if ',' ∈ cleaned then
    py_float_parts (cleaned.map swapComma)
  else
    py_float_parts cleaned

/-- The separator logic together with the final float() call. -/
def parse_cleaned (cleaned : List Char) : Option ℚ :=
  (parse_cleaned_parts cleaned).map ratOfParts

/-- parse_price on a character list, parts stage. -/
def parse_price_parts (text : List Char) : Option (Nat × Nat × Nat) :=
  match extract_cleaned text with
  | none => none
  | some cleaned => parse_cleaned_parts cleaned

/-- parse_price on a character list. -/
def parse_price_chars (text : List Char) : Option ℚ :=
  (parse_price_parts text).map ratOfParts

/-- parse_price on a string. -/
def parse_priceS (s : String) : Option ℚ :=
  parse_price_chars s.data

/-- parse_price including the leading check that price_text is None. -/
def parse_price_opt (o : Option String) : Option ℚ :=
  match o with
  | none => none
  | some s => parse_priceS s

example : parse_price_parts "1 234,56".data = some (1234, 56, 2) := by decide
example : parse_priceS "1 234,56" = some (1234.56 : ℚ) := by
  have h : parse_price_parts "1 234,56".data = some (1234, 56, 2) := by decide
  simp [parse_priceS, parse_price_chars, h, ratOfParts]
  norm_num
example : parse_price_parts "1.234,56".data = some (1234, 56, 2) := by decide
example : parse_price_parts "1,234.56".data = some (1234, 56, 2) := by decide
example : parse_price_parts "12.50".data = some (12, 50, 2) := by decide
example : parse_priceS "" = none := by decide
example : parse_priceS "no price" = none := by decide
example : parse_price_parts "1,234".data = some (1, 234, 3) := by decide

/-! ### Price Fetcher: fetch_price (src/bot.py lines 205-284)

The network is modelled as a list of upstream responses, one per attempt.
A response is either a transport error (the except branch) or an HTTP status
with a body; a body is malformed JSON, a JSON value that is not a dict, or a
dict with a success flag and the two optional price-string fields.  The
backoff sleeps the code performs are collected in the second component. -/

inductive UpBody where
  | malformed : UpBody
  | nonDict : UpBody
  | payload : Bool → Option String → Option String → UpBody
deriving DecidableEq

inductive UpResp where
  | netErr : UpResp
  | resp : Nat → UpBody → UpResp
deriving DecidableEq

/-- Python truthiness of an optional string: None and the empty string are
falsy.  Used for data.get of the price fields and for the username. -/
def pyTruthyStr (o : Option String) : Bool :=
  match o with
  | none => false
  | some s => s != ""

/-- The attempt loop of fetch_price: for attempt in range(3).  Each list
element is the outcome of one HTTP GET; the result pairs the returned price
with the list of backoff sleeps (in seconds) actually performed. -/
def fetch_price_go : Nat → List UpResp → Option ℚ × List Nat
  | _, [] => (none, [])
  | attempt, r :: rest =>
    match r with
    | UpResp.netErr =>
      if attempt < 2 then
        let x := fetch_price_go (attempt + 1) rest
        (x.1, (1 + attempt) :: x.2)
      else (none, [])
    | UpResp.resp status body =>
      if status = 429 ∧ attempt < 2 then
        let x := fetch_price_go (attempt + 1) rest
        (x.1, (1 + attempt) :: x.2)
      else if status ≠ 200 then (none, [])
      else
        match body with
        | UpBody.malformed => (none, [])
        | UpBody.nonDict => (none, [])
        | UpBody.payload success lp mp =>
          if !success then (none, [])
          else
            match parse_price_opt (if pyTruthyStr lp then lp else mp) with
            | none => (none, [])
            | some v => (some v, [])

/-- fetch_price over a list of per-attempt upstream responses. -/
def fetch_price_run (resps : List UpResp) : Option ℚ × List Nat :=
  fetch_price_go 0 resps

/-! ### Data model: accounts and tracked items -/

/-- The settings dict created at registration and mutated by api_settings. -/
structure Settings where
  currency_label : String
  currency_code : ℤ
  language : String
  interval_min : ℤ
deriving DecidableEq

/-- A user record as stored in users.json. -/
structure UserRec where
  tg_login : String
  tg_username_real : Option String
  salt : String
  pw_hash : String
  token : String
  tg_chat_id : Option ℤ
  pair_code : Option String
  settings : Settings
deriving DecidableEq

/-- Python truthiness of the optional chat id: None and 0 are falsy. -/
def chatFalsy (o : Option ℤ) : Bool :=
  match o with
  | none => true
  | some n => n = 0

/-- A tracked item record as stored in items.json. -/
structure Item where
  id : String
  user_token : String
  appid : ℤ
  hash_name : String
  target_price : ℚ
  direction : String
  enabled : Bool
  last_price : Option ℚ
  last_checked_at : ℤ
  last_notified_at : ℤ
deriving DecidableEq

/-- make_item_id (src/bot.py lines 287-288). -/
def make_item_id (appid : ℤ) (hash_name : String) (user_token : String) : String :=
  user_token ++ "|" ++ toString appid ++ "|" ++ hash_name

/-! ### updateSettings: api_settings (src/bot.py lines 511-540) -/

/-- A JSON value as the handlers receive it (the cases the settings and
track handlers distinguish). -/
inductive JVal where
  | jnull : JVal
  | jint : ℤ → JVal
  | jstr : String → JVal
deriving DecidableEq

/-- Python int() on a string: strip whitespace, optional sign, digits. -/
def py_int_of_str (s : String) : Option ℤ :=
  let t := pyStrip s.data
  match t with
  | '-' :: ds =>
    if ds ≠ [] ∧ ds.all Char.isDigit then some (-(digitsVal ds : ℤ)) else none
  | '+' :: ds =>
    if ds ≠ [] ∧ ds.all Char.isDigit then some ((digitsVal ds : ℤ)) else none
  | ds =>
    if ds ≠ [] ∧ ds.all Char.isDigit then some ((digitsVal ds : ℤ)) else none

/-- Python int() on a JSON value: an int is itself, a string is parsed,
null raises (None here). -/
def py_int (v : JVal) : Option ℤ :=
  match v with
  | JVal.jnull => none
  | JVal.jint n => some n
  | JVal.jstr s => py_int_of_str s

/-- The interval_min computation of api_settings: try int(interval_min),
falling back to the previous stored value on TypeError or ValueError, then
clamp values below 1 up to 1. -/
def settings_interval (prev : ℤ) (v : JVal) : ℤ :=
  let interval := match py_int v with
    | some n => n
    | none => prev
  if interval < 1 then 1 else interval

/-! ### Pairing redemption: start_handler (src/bot.py lines 306-341) -/

/-- The scan-and-update of start_handler once a nonempty code argument was
given: find the first user whose pair_code equals the code and whose chat
linkage is falsy; none found reports the invalid-or-used message (none);
otherwise set the chat id, record the display handle (falling back to the
login when the username is falsy), clear the code. -/
def start_redeem (code : String) (chat : ℤ) (uname : Option String) :
    List UserRec → Option (List UserRec)
  | [] => none
  | u :: rest =>
    if u.pair_code = some code ∧ chatFalsy u.tg_chat_id then
      some ({ u with
                tg_chat_id := some chat,
                tg_username_real :=
                  some (if pyTruthyStr uname then "@" ++ uname.getD "" else u.tg_login),
                pair_code := none } :: rest)
    else
      match start_redeem code chat uname rest with
      | some rest2 => some (u :: rest2)
      | none => none

/-- Whether a user matches the redemption scan for a code. -/
def pairMatch (code : String) (u : UserRec) : Bool :=
  u.pair_code = some code ∧ chatFalsy u.tg_chat_id

/-! ### Item Tracking Store: api_track upsert and api_untrack
(src/bot.py lines 601-630 and 674-697) -/

/-- The refresh branch of the api_track upsert: overwrite target, direction,
enabled, last_price and last_checked_at of the existing record. -/
def refresh_item (it : Item) (target : ℚ) (dir : String) (price : Option ℚ)
    (now : ℤ) : Item :=
  { it with
      target_price := target
      direction := dir
      enabled := true
      last_price := price
      last_checked_at := now }

/-- The append branch of the api_track upsert: a fresh record with
last_notified_at initialised to 0. -/
def new_item (user_token : String) (appid : ℤ) (hash_name : String)
    (target : ℚ) (dir : String) (price : Option ℚ) (now : ℤ) : Item :=
  { id := make_item_id appid hash_name user_token
    user_token := user_token
    appid := appid
    hash_name := hash_name
    target_price := target
    direction := dir
    enabled := true
    last_price := price
    last_checked_at := now
    last_notified_at := 0 }

/-- The upsert of api_track: update the first record whose id equals the
computed composite id, otherwise append a fresh record at the end. -/
def track_upsert (user_token : String) (appid : ℤ) (hash_name : String)
    (target : ℚ) (dir : String) (price : Option ℚ) (now : ℤ) :
    List Item → List Item
  | [] => [new_item user_token appid hash_name target dir price now]
  | it :: rest =>
    if it.id = make_item_id appid hash_name user_token then
      refresh_item it target dir price now :: rest
    else
      it :: track_upsert user_token appid hash_name target dir price now rest

/-- find_user_by_token (src/bot.py lines 93-97). -/
def find_user_by_token (token : String) (users : List UserRec) : Option UserRec :=
  users.find? (fun u => u.token = token)

/-- The removal loop of api_untrack: keep every item except those whose id
equals the requested id and whose owner token equals the caller token. -/
def untrack_items (user_token : String) (item_id : String) :
    List Item → List Item
  | [] => []
  | it :: rest =>
    if it.id = item_id ∧ it.user_token = user_token then
      untrack_items user_token item_id rest
    else
      it :: untrack_items user_token item_id rest

/-- api_untrack: authenticate by token, then filter the store; the response
is ok (some) whether or not anything was removed. -/
def api_untrack (users : List UserRec) (items : List Item)
    (token : String) (item_id : String) : Option (List Item) :=
  match find_user_by_token token users with
  | none => none
  | some u => some (untrack_items u.token item_id items)

/-! ### Polling Scheduler: polling_loop (src/bot.py lines 702-801) -/

/-- The per-item body of one polling cycle, given the owning user and the
price the fetch returned (none when the fetch failed or the item was not
fetched).  Returns the updated snapshot item and whether a notification was
sent this cycle. -/
def polling_step (now : ℤ) (u : UserRec) (price : Option ℚ) (it : Item) :
    Item × Bool :=
  if !it.enabled then (it, false)
  else if chatFalsy u.tg_chat_id then (it, false)
  else
    let interval_min := if u.settings.interval_min < 1 then 1 else u.settings.interval_min
    if now - it.last_checked_at < interval_min * 60 then (it, false)
    else
      let it2 := { it with last_checked_at := now, last_price := price }
      match price with
      | none => (it2, false)
      | some p =>
        if now - it2.last_notified_at < 3600 then (it2, false)
        else if it2.direction = "buy" then
          if p ≤ it2.target_price then
            ({ it2 with last_notified_at := now }, true)
          else (it2, false)
        else if it2.direction = "sell" then
          if it2.target_price ≤ p then
            ({ it2 with last_notified_at := now }, true)
          else (it2, false)
        else (it2, false)

/-- The dict comprehension id_to_item over the snapshot: a later snapshot
item with the same id wins, as in a Python dict build. -/
def dict_of_items (l : List Item) (k : String) : Option Item :=
  (l.filter (fun it => it.id = k)).getLast?

/-- The merge step at the end of a polling cycle: every authoritative item
whose id appears in the snapshot dict is replaced by the snapshot item;
other authoritative items stay; snapshot items with unknown ids are
dropped. -/
def merge_items (auth snap : List Item) : List Item :=
  auth.map (fun it =>
    match dict_of_items snap it.id with
    | some s => s
    | none => it)


/-! ### Helper lemmas about the normalizer -/

lemma digit_ne_comma {c : Char} (h : c.isDigit = true) : c ≠ ',' := by
  intro hc
  subst hc
  exact absurd h (by decide)

lemma digit_ne_dot {c : Char} (h : c.isDigit = true) : c ≠ '.' := by
  intro hc
  subst hc
  exact absurd h (by decide)

lemma map_swapComma_id {l : List Char} (h : ∀ c ∈ l, c ≠ ',') : l.map swapComma = l := by
  induction l with
  | nil => rfl
  | cons c l ih =>
    have hc : c ≠ ',' := h c (List.mem_cons_self c l)
    simp only [List.map_cons, swapComma, if_neg hc]
    rw [ih (fun d hd => h d (List.mem_cons_of_mem c hd))]

lemma takeWhile_append_sep {a b : List Char} {x : Char} {p : Char → Bool}
    (ha : ∀ c ∈ a, p c = true) (hx : p x = false) :
    (a ++ x :: b).takeWhile p = a := by
  induction a with
  | nil => simp [List.takeWhile_cons, hx]
  | cons c a ih =>
    have hc : p c = true := ha c (List.mem_cons_self c a)
    simp only [List.cons_append, List.takeWhile_cons, hc, if_true]
    rw [ih (fun d hd => ha d (List.mem_cons_of_mem c hd))]

lemma dropWhile_append_sep {a b : List Char} {x : Char} {p : Char → Bool}
    (ha : ∀ c ∈ a, p c = true) (hx : p x = false) :
    (a ++ x :: b).dropWhile p = x :: b := by
  induction a with
  | nil => simp [List.dropWhile_cons, hx]
  | cons c a ih =>
    have hc : p c = true := ha c (List.mem_cons_self c a)
    simp only [List.cons_append, List.dropWhile_cons, hc, if_true]
    exact ih (fun d hd => ha d (List.mem_cons_of_mem c hd))

lemma py_float_parts_split {a b : List Char}
    (ha : ∀ c ∈ a, c.isDigit = true) (hb : ∀ c ∈ b, c.isDigit = true)
    (hne : a ≠ [] ∨ b ≠ []) :
    py_float_parts (a ++ '.' :: b) = some (digitsVal a, digitsVal b, b.length) := by
  have hpa : ∀ c ∈ a, (c != '.') = true := by
    intro c hc
    simpa using digit_ne_dot (ha c hc)
  have hTW : (a ++ '.' :: b).takeWhile (fun c => c != '.') = a :=
    takeWhile_append_sep hpa (by simp)
  have hDW : (a ++ '.' :: b).dropWhile (fun c => c != '.') = '.' :: b :=
    dropWhile_append_sep hpa (by simp)
  unfold py_float_parts
  simp only [hTW, hDW]
  rw [if_pos]
  exact ⟨hne, List.all_eq_true.mpr ha, List.all_eq_true.mpr hb⟩

lemma dropWhile_head_false (p : Char → Bool) :
    ∀ {l : List Char} {x : Char} {rest : List Char},
      l.dropWhile p = x :: rest → p x = false := by
  intro l
  induction l with
  | nil => intro x rest h; simp at h
  | cons c l ih =>
    intro x rest h
    rw [List.dropWhile_cons] at h
    by_cases hc : p c = true
    · rw [if_pos hc] at h
      exact ih h
    · rw [if_neg hc] at h
      obtain ⟨rfl, -⟩ := List.cons.inj h
      exact Bool.eq_false_iff.mpr hc

lemma py_float_parts_two_dots {l : List Char} (h : 2 ≤ l.count '.') :
    py_float_parts l = none := by
  have hsplit : l.takeWhile (fun c => c != '.') ++ l.dropWhile (fun c => c != '.') = l :=
    List.takeWhile_append_dropWhile (fun c => c != '.') l
  have hTWzero : (l.takeWhile (fun c => c != '.')).count '.' = 0 := by
    rw [List.count_eq_zero]
    intro hmem
    have := List.mem_takeWhile_imp hmem
    simp at this
  have hDWcount : 2 ≤ (l.dropWhile (fun c => c != '.')).count '.' := by
    have hc := List.count_append '.' (l.takeWhile (fun c => c != '.'))
      (l.dropWhile (fun c => c != '.'))
    rw [hsplit] at hc
    omega
  rcases hdw : l.dropWhile (fun c => c != '.') with _ | ⟨d, frac⟩
  · rw [hdw] at hDWcount; simp at hDWcount
  · have hd : (d != '.') = false := dropWhile_head_false (fun c => c != '.') hdw
    have hd2 : d = '.' := by simpa using hd
    have hfrac : '.' ∈ frac := by
      rw [hdw, hd2, List.count_cons] at hDWcount
      norm_num at hDWcount
      apply List.count_pos_iff.mp
      omega
    subst hd2
    simp only [py_float_parts, hdw]
    rw [if_neg]
    intro hcond
    have hall := hcond.2.2
    rw [List.all_eq_true] at hall
    exact absurd (hall '.' hfrac) (by decide)

lemma count_dot_map_swapComma (l : List Char) :
    (l.map swapComma).count '.' = l.count ',' + l.count '.' := by
  induction l with
  | nil => rfl
  | cons c l ih =>
    simp only [List.map_cons, List.count_cons, ih]
    by_cases hc : c = ','
    · subst hc
      norm_num [swapComma]
      rw [if_neg (show ¬(',' : Char) = '.' by decide)]
      omega
    · by_cases hd : c = '.'
      · subst hd
        norm_num [swapComma]
        rw [if_neg (show ¬('.' : Char) = ',' by decide)]
        omega
      · have h1 : swapComma c = c := by simp [swapComma, hc]
        rw [h1]
        have h2 : (c == '.') = false := by simpa using hd
        have h3 : (c == ',') = false := by simpa using hc
        simp [h2, h3]

lemma rfindIdx_ge_neg_one (l : List Char) (c : Char) : -1 ≤ rfindIdx l c := by
  induction l with
  | nil => simp [rfindIdx]
  | cons a l ih =>
    simp only [rfindIdx]
    split
    · omega
    · split <;> omega

lemma rfindIdx_lt_length (l : List Char) (c : Char) : rfindIdx l c < l.length := by
  induction l with
  | nil => simp [rfindIdx]
  | cons a l ih =>
    simp only [rfindIdx, List.length_cons]
    split
    · push_cast; omega
    · split <;> (push_cast; omega)

lemma rfindIdx_nonneg_of_mem {l : List Char} {c : Char} (h : c ∈ l) :
    0 ≤ rfindIdx l c := by
  induction l with
  | nil => simp at h
  | cons a l ih =>
    simp only [rfindIdx]
    rcases List.mem_cons.mp h with rfl | hmem
    · split
      · omega
      · rw [if_pos rfl]
    · have := ih hmem
      split
      · omega
      · omega

lemma rfindIdx_neg_of_not_mem {l : List Char} {c : Char} (h : c ∉ l) :
    rfindIdx l c = -1 := by
  induction l with
  | nil => rfl
  | cons a l ih =>
    have ha : ¬ a = c := fun hac => h (hac ▸ List.mem_cons_self a l)
    have hl : c ∉ l := fun hm => h (List.mem_cons_of_mem a hm)
    simp only [rfindIdx, ih hl]
    rw [if_neg (by omega), if_neg ha]

lemma rfindIdx_nil (c : Char) : rfindIdx [] c = -1 := rfl

lemma rfindIdx_cons (a : Char) (l : List Char) (c : Char) :
    rfindIdx (a :: l) c =
      if 0 ≤ rfindIdx l c then rfindIdx l c + 1 else if a = c then 0 else -1 := rfl

lemma rfindIdx_append_of_mem {w : List Char} {c : Char} (u : List Char) (h : c ∈ w) :
    rfindIdx (u ++ w) c = (u.length : ℤ) + rfindIdx w c := by
  induction u with
  | nil => simp
  | cons a u ih =>
    have hw : 0 ≤ rfindIdx w c := rfindIdx_nonneg_of_mem h
    rw [List.cons_append, rfindIdx_cons, ih,
      if_pos (by omega : (0:ℤ) ≤ (u.length : ℤ) + rfindIdx w c), List.length_cons]
    push_cast
    omega

lemma rfindIdx_append_of_not_mem {w : List Char} {c : Char} (u : List Char) (h : c ∉ w) :
    rfindIdx (u ++ w) c = rfindIdx u c := by
  induction u with
  | nil => simp [rfindIdx_neg_of_not_mem h, rfindIdx_nil]
  | cons a u ih =>
    rw [List.cons_append, rfindIdx_cons, ih, rfindIdx_cons]

lemma rfindIdx_sep_last {u v : List Char} {x y : Char} (hxy : y ≠ x) (hv : y ∉ v) :
    rfindIdx (u ++ x :: v) y < rfindIdx (u ++ x :: v) x := by
  have hx : rfindIdx (u ++ x :: v) x = (u.length : ℤ) + rfindIdx (x :: v) x :=
    rfindIdx_append_of_mem u (List.mem_cons_self x v)
  have hxnn : 0 ≤ rfindIdx (x :: v) x := rfindIdx_nonneg_of_mem (List.mem_cons_self x v)
  have hy : rfindIdx (u ++ x :: v) y = rfindIdx u y :=
    rfindIdx_append_of_not_mem u (by simp [hxy, hv])
  have hlt := rfindIdx_lt_length u y
  omega

lemma parse_price_parts_of_extract {text cl : List Char}
    (h : extract_cleaned text = some cl) :
    parse_price_parts text = parse_cleaned_parts cl := by
  simp [parse_price_parts, h]

lemma parse_cleaned_parts_comma_only {cl : List Char} (hc : ',' ∈ cl) (hd : '.' ∉ cl) :
    parse_cleaned_parts cl = py_float_parts (cl.map swapComma) := by
  unfold parse_cleaned_parts
  rw [if_neg (fun hand => hd hand.2), if_pos hc]

lemma parse_cleaned_parts_no_comma {cl : List Char} (hc : ',' ∉ cl) :
    parse_cleaned_parts cl = py_float_parts cl := by
  unfold parse_cleaned_parts
  rw [if_neg (fun hand => hc hand.1), if_neg hc]

lemma parse_cleaned_parts_comma_last {u v : List Char}
    (hd : '.' ∈ u ++ ',' :: v) (hv : '.' ∉ v) :
    parse_cleaned_parts (u ++ ',' :: v) =
      py_float_parts (((u ++ ',' :: v).filter (fun c => c != '.')).map swapComma) := by
  have hcm : ',' ∈ u ++ ',' :: v := by simp
  have hlt : rfindIdx (u ++ ',' :: v) '.' < rfindIdx (u ++ ',' :: v) ',' :=
    rfindIdx_sep_last (by decide) hv
  unfold parse_cleaned_parts
  rw [if_pos ⟨hcm, hd⟩, if_pos hlt]

lemma parse_cleaned_parts_dot_last {u v : List Char}
    (hc : ',' ∈ u ++ '.' :: v) (hv : ',' ∉ v) :
    parse_cleaned_parts (u ++ '.' :: v) =
      py_float_parts ((u ++ '.' :: v).filter (fun c => c != ',')) := by
  have hdm : '.' ∈ u ++ '.' :: v := by simp
  have hlt : rfindIdx (u ++ '.' :: v) ',' < rfindIdx (u ++ '.' :: v) '.' :=
    rfindIdx_sep_last (by decide) hv
  unfold parse_cleaned_parts
  rw [if_pos ⟨hc, hdm⟩, if_neg (by omega)]

/-! ### Claim theorems for the Price Normalizer -/

/-- C2: mixed-separator rule of parse_price: when both a dot and a comma
occur in the cleaned digit run, the separator occurring last is the decimal
separator and every occurrence of the other is removed before the float
parse; reference vectors; the empty string and inputs without a digit run
are unparseable. -/
theorem parse_price_mixed_separator_rule :
    (∀ text cl u v, extract_cleaned text = some cl → cl = u ++ ',' :: v →
      '.' ∈ cl → '.' ∉ v →
      parse_price_chars text =
        py_float ((cl.filter (fun c => c != '.')).map swapComma)) ∧
    (∀ text cl u v, extract_cleaned text = some cl → cl = u ++ '.' :: v →
      ',' ∈ cl → ',' ∉ v →
      parse_price_chars text = py_float (cl.filter (fun c => c != ','))) ∧
    parse_priceS "1 234,56" = some ((1234.56 : ℚ)) ∧
    parse_priceS "1.234,56" = some ((1234.56 : ℚ)) ∧
    parse_priceS "1,234.56" = some ((1234.56 : ℚ)) ∧
    parse_priceS "12.50" = some ((12.50 : ℚ)) ∧
    parse_priceS "" = none ∧
    (∀ text, findDigitRun (pyStrip (nbspToSpace text)) = none →
      parse_price_chars text = none) := by
  refine ⟨?_, ?_, ?_, ?_, ?_, ?_, by decide, ?_⟩
  · intro text cl u v hext hcl hd hv
    subst hcl
    show (parse_price_parts text).map ratOfParts = _
    rw [parse_price_parts_of_extract hext, parse_cleaned_parts_comma_last hd hv]
    rfl
  · intro text cl u v hext hcl hc hv
    subst hcl
    show (parse_price_parts text).map ratOfParts = _
    rw [parse_price_parts_of_extract hext, parse_cleaned_parts_dot_last hc hv]
    rfl
  · have h : parse_price_parts "1 234,56".data = some (1234, 56, 2) := by decide
    simp [parse_priceS, parse_price_chars, h, ratOfParts]
    norm_num
  · have h : parse_price_parts "1.234,56".data = some (1234, 56, 2) := by decide
    simp [parse_priceS, parse_price_chars, h, ratOfParts]
    norm_num
  · have h : parse_price_parts "1,234.56".data = some (1234, 56, 2) := by decide
    simp [parse_priceS, parse_price_chars, h, ratOfParts]
    norm_num
  · have h : parse_price_parts "12.50".data = some (12, 50, 2) := by decide
    simp [parse_priceS, parse_price_chars, h, ratOfParts]
    norm_num
  · intro text h
    by_cases ht : pyStrip (nbspToSpace text) = [] <;>
      simp [parse_price_chars, parse_price_parts, extract_cleaned, h, ht]

/-- C2 witness: the mixed-separator rule applied to the concrete input
1.234,56 whose extracted run holds both separators with the comma last. -/
theorem parse_price_mixed_separator_rule_witness :
    parse_price_chars "1.234,56".data =
      py_float ((("1.234,56".data).filter (fun c => c != '.')).map swapComma) :=
  parse_price_mixed_separator_rule.1 "1.234,56".data "1.234,56".data
    ['1', '.', '2', '3', '4'] ['5', '6'] (by decide) (by decide) (by decide) (by decide)

/-- C1 counterexample: the input 1,234 has a single comma followed by three
digits; the claimed rule would strip it as a thousands separator and yield
1234, but parse_price treats it as a decimal separator and yields 1.234. -/
theorem parse_price_single_separator_cex :
    parse_priceS "1,234" = some ((1234 : ℚ) / 1000) ∧
    parse_priceS "1,234" ≠ some (1234 : ℚ) := by
  have h : parse_price_parts "1,234".data = some (1, 234, 3) := by decide
  have h2 : parse_priceS "1,234" = some (ratOfParts (1, 234, 3)) := by
    simp [parse_priceS, parse_price_chars, h]
  rw [h2]
  constructor
  · norm_num [ratOfParts]
  · simp only [ratOfParts, Ne, Option.some.injEq]
    norm_num

/-- C1 amended: when exactly one of dot and comma occurs in the cleaned
digit run, parse_price always treats that separator as a decimal separator,
no matter how many digits follow it (a single occurrence with digit parts a
and b yields the value a.b, so 1,234 gives 1.234, not 1234); when that
single separator kind occurs more than once the cleaned string fails the
float parse and the result is unparseable. -/
theorem parse_price_single_separator_decimal :
    (∀ text cl a b, extract_cleaned text = some cl → cl = a ++ ',' :: b →
      (∀ c ∈ a, c.isDigit = true) → (∀ c ∈ b, c.isDigit = true) → (a ≠ [] ∨ b ≠ []) →
      parse_price_chars text =
        some ((digitsVal a : ℚ) + (digitsVal b : ℚ) / 10 ^ b.length)) ∧
    (∀ text cl a b, extract_cleaned text = some cl → cl = a ++ '.' :: b →
      (∀ c ∈ a, c.isDigit = true) → (∀ c ∈ b, c.isDigit = true) → (a ≠ [] ∨ b ≠ []) →
      parse_price_chars text =
        some ((digitsVal a : ℚ) + (digitsVal b : ℚ) / 10 ^ b.length)) ∧
    (∀ text cl, extract_cleaned text = some cl → '.' ∉ cl → 2 ≤ cl.count ',' →
      parse_price_chars text = none) ∧
    (∀ text cl, extract_cleaned text = some cl → ',' ∉ cl → 2 ≤ cl.count '.' →
      parse_price_chars text = none) := by
  refine ⟨?_, ?_, ?_, ?_⟩
  · intro text cl a b hext hcl ha hb hne
    subst hcl
    have hd : '.' ∉ a ++ ',' :: b := by
      intro hmem
      rcases List.mem_append.mp hmem with h1 | h2
      · exact absurd (ha _ h1) (by decide)
      · rcases List.mem_cons.mp h2 with h3 | h4
        · exact absurd h3 (by decide)
        · exact absurd (hb _ h4) (by decide)
    have hcm : ',' ∈ a ++ ',' :: b := by simp
    have hmap : (a ++ ',' :: b).map swapComma = a ++ '.' :: b := by
      rw [List.map_append, List.map_cons]
      rw [map_swapComma_id (fun c hc => digit_ne_comma (ha c hc)),
        map_swapComma_id (fun c hc => digit_ne_comma (hb c hc))]
      rfl
    show (parse_price_parts text).map ratOfParts = _
    rw [parse_price_parts_of_extract hext, parse_cleaned_parts_comma_only hcm hd,
      hmap, py_float_parts_split ha hb hne]
    rfl
  · intro text cl a b hext hcl ha hb hne
    subst hcl
    have hc : ',' ∉ a ++ '.' :: b := by
      intro hmem
      rcases List.mem_append.mp hmem with h1 | h2
      · exact absurd (ha _ h1) (by decide)
      · rcases List.mem_cons.mp h2 with h3 | h4
        · exact absurd h3 (by decide)
        · exact absurd (hb _ h4) (by decide)
    show (parse_price_parts text).map ratOfParts = _
    rw [parse_price_parts_of_extract hext, parse_cleaned_parts_no_comma hc,
      py_float_parts_split ha hb hne]
    rfl
  · intro text cl hext hd hcount
    have hcm : ',' ∈ cl := List.count_pos_iff.mp (by omega)
    have hzero : cl.count '.' = 0 := List.count_eq_zero.mpr hd
    have htwo : 2 ≤ (cl.map swapComma).count '.' := by
      rw [count_dot_map_swapComma, hzero]
      omega
    show (parse_price_parts text).map ratOfParts = _
    rw [parse_price_parts_of_extract hext, parse_cleaned_parts_comma_only hcm hd,
      py_float_parts_two_dots htwo]
    rfl
  · intro text cl hext hc hcount
    show (parse_price_parts text).map ratOfParts = _
    rw [parse_price_parts_of_extract hext, parse_cleaned_parts_no_comma hc,
      py_float_parts_two_dots hcount]
    rfl

/-- C1 witness: the amended rule applied to the concrete input 1,234. -/
theorem parse_price_single_separator_decimal_witness :
    parse_price_chars "1,234".data =
      some ((digitsVal ['1'] : ℚ) +
        (digitsVal ['2', '3', '4'] : ℚ) / 10 ^ (['2', '3', '4'] : List Char).length) :=
  parse_price_single_separator_decimal.1 "1,234".data "1,234".data
    ['1'] ['2', '3', '4'] (by decide) (by decide) (by decide) (by decide)
    (Or.inl (by decide))

/-! ### Claim theorems for the Price Fetcher -/

/-- C3 counterexample: a 200 response whose payload has success set, a
lowest price field that is present but empty, and a median price of 12.50.
The claim says the present lowest price field is taken (and an empty string
is unparseable, collapsing to unavailable), but fetch_price falls back to
the median field because the empty string is falsy, and returns 12.50. -/
theorem fetch_price_fallback_cex :
    (fetch_price_run
        [UpResp.resp 200 (UpBody.payload true (some "") (some "12.50"))]).1 =
      some ((1250 : ℚ) / 100) ∧
    parse_price_opt (some "") = none := by
  constructor
  · have hp : parse_price_parts "12.50".data = some (12, 50, 2) := by decide
    have h : parse_price_opt (some "12.50") = some (ratOfParts (12, 50, 2)) := by
      simp [parse_price_opt, parse_priceS, parse_price_chars, hp]
    simp only [fetch_price_run, fetch_price_go, pyTruthyStr]
    norm_num
    rw [h]
    norm_num [ratOfParts]
  · decide

/-- C3 amended: fetch_price never raises (it is a total function of the
response list); on HTTP 429 it retries at most 2 additional times with
backoff sleeps of 1s then 2s before returning unavailable; any other
non-200 status, a malformed body, a non-dict body, or an unset success flag
returns unavailable immediately with no retry and no sleep; on success the
lowest price field is used, falling back to the median field when the
lowest field is absent OR empty (Python falsiness), and the parse result
(unparseable collapsing to unavailable) is returned. -/
theorem fetch_price_outcomes :
    (∀ b1 b2 b3 rest,
      fetch_price_run
          (UpResp.resp 429 b1 :: UpResp.resp 429 b2 :: UpResp.resp 429 b3 :: rest) =
        (none, [1, 2])) ∧
    (∀ st b rest, st ≠ 200 → st ≠ 429 →
      fetch_price_run (UpResp.resp st b :: rest) = (none, [])) ∧
    (∀ rest, fetch_price_run (UpResp.resp 200 UpBody.malformed :: rest) = (none, [])) ∧
    (∀ rest, fetch_price_run (UpResp.resp 200 UpBody.nonDict :: rest) = (none, [])) ∧
    (∀ lp mp rest,
      fetch_price_run (UpResp.resp 200 (UpBody.payload false lp mp) :: rest) =
        (none, [])) ∧
    (∀ s mp rest, s ≠ "" →
      fetch_price_run (UpResp.resp 200 (UpBody.payload true (some s) mp) :: rest) =
        (parse_priceS s, [])) ∧
    (∀ mp rest,
      fetch_price_run (UpResp.resp 200 (UpBody.payload true none mp) :: rest) =
        (parse_price_opt mp, [])) ∧
    (∀ mp rest,
      fetch_price_run (UpResp.resp 200 (UpBody.payload true (some "") mp) :: rest) =
        (parse_price_opt mp, [])) := by
  refine ⟨?_, ?_, ?_, ?_, ?_, ?_, ?_, ?_⟩
  · intro b1 b2 b3 rest
    simp [fetch_price_run, fetch_price_go]
  · intro st b rest h200 h429
    simp [fetch_price_run, fetch_price_go, h200, h429]
  · intro rest
    simp [fetch_price_run, fetch_price_go]
  · intro rest
    simp [fetch_price_run, fetch_price_go]
  · intro lp mp rest
    simp [fetch_price_run, fetch_price_go]
  · intro s mp rest hs
    have ht : pyTruthyStr (some s) = true := by simpa [pyTruthyStr] using hs
    rcases hp : parse_priceS s with _ | v <;>
      simp [fetch_price_run, fetch_price_go, ht, parse_price_opt, hp]
  · intro mp rest
    rcases hp : parse_price_opt mp with _ | v <;>
      simp [fetch_price_run, fetch_price_go, pyTruthyStr, hp]
  · intro mp rest
    rcases hp : parse_price_opt mp with _ | v <;>
      simp [fetch_price_run, fetch_price_go, pyTruthyStr, hp]

/-- C3 witness: a 500 response returns unavailable at once with no sleeps. -/
theorem fetch_price_outcomes_witness :
    fetch_price_run [UpResp.resp 500 UpBody.malformed] = (none, []) :=
  fetch_price_outcomes.2.1 500 UpBody.malformed [] (by decide) (by decide)

/-! ### Claim theorems for updateSettings -/

/-- C4 counterexample: with a previous interval of 10, submitting the
integer 0 (which coerces but is below 1) stores 1, not the previous 10 the
claim requires. -/
theorem settings_interval_cex :
    settings_interval 10 (JVal.jint 0) = 1 ∧ (1 : ℤ) ≠ 10 := by
  constructor
  · decide
  · decide

/-- C4 amended: the submitted interval is applied as given only when it
coerces to an integer at least 1; a value that coerces to an integer below
1 (such as 0 or -5) is clamped up to 1 rather than keeping the previous
value; only a value that does not coerce at all (None or a non-numeric
string) keeps the previous value (itself clamped up to 1). -/
theorem settings_interval_coercion :
    (∀ prev v n, py_int v = some n → 1 ≤ n → settings_interval prev v = n) ∧
    (∀ prev v n, py_int v = some n → n < 1 → settings_interval prev v = 1) ∧
    (∀ prev v, py_int v = none → 1 ≤ prev → settings_interval prev v = prev) ∧
    (∀ prev v, py_int v = none → prev < 1 → settings_interval prev v = 1) := by
  refine ⟨?_, ?_, ?_, ?_⟩
  · intro prev v n h hn
    simp [settings_interval, h]
    omega
  · intro prev v n h hn
    simp [settings_interval, h]
    omega
  · intro prev v h hp
    simp [settings_interval, h]
    omega
  · intro prev v h hp
    simp [settings_interval, h]
    omega

/-- C4 witness: a non-numeric string keeps the previous interval 10, and
the integer 7 is applied as given. -/
theorem settings_interval_coercion_witness :
    settings_interval 10 (JVal.jstr "abc") = 10 ∧
    settings_interval 10 (JVal.jint 7) = 7 :=
  ⟨settings_interval_coercion.2.2.1 10 (JVal.jstr "abc") (by decide) (by decide),
   settings_interval_coercion.1 10 (JVal.jint 7) 7 (by decide) (by decide)⟩

/-! ### Helper lemmas for pairing redemption -/

lemma pairMatch_eq_true {code : String} {u : UserRec} :
    pairMatch code u = true ↔
      (u.pair_code = some code ∧ chatFalsy u.tg_chat_id = true) := by
  simp [pairMatch]

lemma start_redeem_eq_none {code : String} {chat : ℤ} {un : Option String} :
    ∀ {l : List UserRec},
      (∀ u ∈ l, pairMatch code u = false) → start_redeem code chat un l = none := by
  intro l
  induction l with
  | nil => intro h; rfl
  | cons u rest ih =>
    intro h
    have hu : pairMatch code u = false := h u (List.mem_cons_self u rest)
    have hcond : ¬(u.pair_code = some code ∧ chatFalsy u.tg_chat_id = true) := by
      rw [← pairMatch_eq_true]
      simp [hu]
    simp only [start_redeem]
    rw [if_neg hcond]
    rw [ih (fun v hv => h v (List.mem_cons_of_mem u hv))]

lemma start_redeem_exists_match {code : String} {chat : ℤ} {un : Option String} :
    ∀ {l l2 : List UserRec},
      start_redeem code chat un l = some l2 → ∃ u ∈ l, pairMatch code u = true := by
  intro l
  induction l with
  | nil => intro l2 h; simp [start_redeem] at h
  | cons u rest ih =>
    intro l2 h
    simp only [start_redeem] at h
    by_cases hcond : u.pair_code = some code ∧ chatFalsy u.tg_chat_id = true
    · exact ⟨u, List.mem_cons_self u rest, pairMatch_eq_true.mpr hcond⟩
    · rw [if_neg hcond] at h
      rcases hrec : start_redeem code chat un rest with _ | rest2
      · rw [hrec] at h; simp at h
      · obtain ⟨v, hv, hm⟩ := ih hrec
        exact ⟨v, List.mem_cons_of_mem u hv, hm⟩

lemma start_redeem_countP {code : String} {chat : ℤ} {un : Option String} :
    ∀ {l l2 : List UserRec},
      start_redeem code chat un l = some l2 →
      l2.countP (pairMatch code) + 1 = l.countP (pairMatch code) := by
  intro l
  induction l with
  | nil => intro l2 h; simp [start_redeem] at h
  | cons u rest ih =>
    intro l2 h
    simp only [start_redeem] at h
    by_cases hcond : u.pair_code = some code ∧ chatFalsy u.tg_chat_id = true
    · rw [if_pos hcond, Option.some.injEq] at h
      subst h
      rw [List.countP_cons, List.countP_cons]
      have hupd : pairMatch code
          { u with
              tg_chat_id := some chat,
              tg_username_real :=
                some (if pyTruthyStr un then "@" ++ un.getD "" else u.tg_login),
              pair_code := none } = false := by
        simp [pairMatch]
      have hu : pairMatch code u = true := pairMatch_eq_true.mpr hcond
      rw [hupd, hu]
      simp
    · rw [if_neg hcond] at h
      rcases hrec : start_redeem code chat un rest with _ | rest2
      · rw [hrec] at h; simp at h
      · rw [hrec, Option.some.injEq] at h
        subst h
        rw [List.countP_cons, List.countP_cons]
        have := ih hrec
        omega

lemma start_redeem_updated {code : String} {chat : ℤ} {un : Option String} :
    ∀ {l l2 : List UserRec},
      start_redeem code chat un l = some l2 →
      ∃ u ∈ l2, u.tg_chat_id = some chat ∧ u.pair_code = none := by
  intro l
  induction l with
  | nil => intro l2 h; simp [start_redeem] at h
  | cons u rest ih =>
    intro l2 h
    simp only [start_redeem] at h
    by_cases hcond : u.pair_code = some code ∧ chatFalsy u.tg_chat_id = true
    · rw [if_pos hcond, Option.some.injEq] at h
      subst h
      refine ⟨_, List.mem_cons_self _ _, ?_, ?_⟩ <;> rfl
    · rw [if_neg hcond] at h
      rcases hrec : start_redeem code chat un rest with _ | rest2
      · rw [hrec] at h; simp at h
      · rw [hrec, Option.some.injEq] at h
        subst h
        obtain ⟨v, hv, h1, h2⟩ := ih hrec
        exact ⟨v, List.mem_cons_of_mem u hv, h1, h2⟩

/-! ### Claim theorem for pairing redemption -/

/-- C5: a pairing code is redeemable exactly once.  A successful redemption
requires some account whose pairing code equals the input with an unset
(falsy) chat linkage; on success the chat linkage is set and the code
cleared; and, provided at most one account in the starting state matches
the code (the claim's no-other-holder assumption), a second redemption of
the same code from the resulting state fails with the invalid-or-used
outcome. -/
theorem pairing_code_exactly_once
    (users users2 : List UserRec) (code : String) (c1 c2 : ℤ)
    (un1 un2 : Option String)
    (huniq : users.countP (pairMatch code) ≤ 1)
    (h : start_redeem code c1 un1 users = some users2) :
    (∃ u ∈ users, u.pair_code = some code ∧ chatFalsy u.tg_chat_id = true) ∧
    (∃ u ∈ users2, u.tg_chat_id = some c1 ∧ u.pair_code = none) ∧
    start_redeem code c2 un2 users2 = none := by
  refine ⟨?_, start_redeem_updated h, ?_⟩
  · obtain ⟨u, hu, hm⟩ := start_redeem_exists_match h
    exact ⟨u, hu, pairMatch_eq_true.mp hm⟩
  · have hcount := start_redeem_countP h
    have hzero : users2.countP (pairMatch code) = 0 := by omega
    apply start_redeem_eq_none
    intro u hu
    by_contra hne
    have : 0 < users2.countP (pairMatch code) :=
      List.countP_pos_iff.mpr ⟨u, hu, by simpa using hne⟩
    omega

/-- C5 witness: a concrete single-user state with code 123456: redemption
succeeds, and the reused code is then reported invalid or used. -/
theorem pairing_code_exactly_once_witness :
    (∃ u ∈ ([{ tg_login := "@alice", tg_username_real := none, salt := "s",
               pw_hash := "h", token := "tok", tg_chat_id := none,
               pair_code := some "123456",
               settings := { currency_label := "RUB", currency_code := 5,
                             language := "en", interval_min := 10 } }] : List UserRec),
        u.pair_code = some "123456" ∧ chatFalsy u.tg_chat_id = true) ∧
    (∃ u ∈ ([{ tg_login := "@alice", tg_username_real := some "@alice", salt := "s",
               pw_hash := "h", token := "tok", tg_chat_id := some 77,
               pair_code := none,
               settings := { currency_label := "RUB", currency_code := 5,
                             language := "en", interval_min := 10 } }] : List UserRec),
        u.tg_chat_id = some 77 ∧ u.pair_code = none) ∧
    start_redeem "123456" 88 (some "bob")
        ([{ tg_login := "@alice", tg_username_real := some "@alice", salt := "s",
            pw_hash := "h", token := "tok", tg_chat_id := some 77,
            pair_code := none,
            settings := { currency_label := "RUB", currency_code := 5,
                          language := "en", interval_min := 10 } }] : List UserRec) = none :=
  pairing_code_exactly_once
    [{ tg_login := "@alice", tg_username_real := none, salt := "s",
       pw_hash := "h", token := "tok", tg_chat_id := none,
       pair_code := some "123456",
       settings := { currency_label := "RUB", currency_code := 5,
                     language := "en", interval_min := 10 } }]
    [{ tg_login := "@alice", tg_username_real := some "@alice", salt := "s",
       pw_hash := "h", token := "tok", tg_chat_id := some 77,
       pair_code := none,
       settings := { currency_label := "RUB", currency_code := 5,
                     language := "en", interval_min := 10 } }]
    "123456" 77 88 (some "alice") (some "bob") (by decide) (by decide)

/-! ### Helper lemmas for the item store -/

lemma refresh_item_id (it : Item) (t : ℚ) (d : String) (p : Option ℚ) (n : ℤ) :
    (refresh_item it t d p n).id = it.id := rfl

lemma new_item_id (tok : String) (appid : ℤ) (hn : String) (t : ℚ) (d : String)
    (p : Option ℚ) (n : ℤ) :
    (new_item tok appid hn t d p n).id = make_item_id appid hn tok := rfl

lemma track_upsert_countP (tok : String) (appid : ℤ) (hn : String) (t : ℚ)
    (d : String) (p : Option ℚ) (n : ℤ) :
    ∀ items : List Item,
      (track_upsert tok appid hn t d p n items).countP
          (fun it => it.id == make_item_id appid hn tok) =
        max (items.countP (fun it => it.id == make_item_id appid hn tok)) 1 := by
  intro items
  induction items with
  | nil =>
    simp [track_upsert, List.countP_cons, new_item_id]
  | cons it rest ih =>
    by_cases h : it.id = make_item_id appid hn tok
    · simp only [track_upsert, if_pos h, List.countP_cons]
      have h1 : ((refresh_item it t d p n).id == make_item_id appid hn tok) = true := by
        rw [refresh_item_id]
        exact beq_iff_eq.mpr h
      have h2 : (it.id == make_item_id appid hn tok) = true := beq_iff_eq.mpr h
      rw [h1, h2]
      simp
    · simp only [track_upsert, if_neg h, List.countP_cons, ih]
      have h2 : (it.id == make_item_id appid hn tok) = false := by
        simpa using h
      rw [h2]
      simp

lemma track_upsert_values (tok : String) (appid : ℤ) (hn : String) (t : ℚ)
    (d : String) (p : Option ℚ) (n : ℤ) :
    ∀ items : List Item,
      items.countP (fun it => it.id == make_item_id appid hn tok) ≤ 1 →
      ∀ it ∈ track_upsert tok appid hn t d p n items,
        it.id = make_item_id appid hn tok →
        it.target_price = t ∧ it.direction = d ∧ it.enabled = true ∧
          it.last_price = p ∧ it.last_checked_at = n := by
  intro items
  induction items with
  | nil =>
    intro hcount it hmem hid
    rcases List.mem_singleton.mp hmem with rfl
    exact ⟨rfl, rfl, rfl, rfl, rfl⟩
  | cons x rest ih =>
    intro hcount it hmem hid
    by_cases h : x.id = make_item_id appid hn tok
    · rw [track_upsert, if_pos h] at hmem
      rcases List.mem_cons.mp hmem with rfl | hmem2
      · exact ⟨rfl, rfl, rfl, rfl, rfl⟩
      · exfalso
        have hx : (x.id == make_item_id appid hn tok) = true := beq_iff_eq.mpr h
        rw [List.countP_cons_of_pos (fun (it : Item) => it.id == make_item_id appid hn tok) rest hx] at hcount
        have hpos : 0 < rest.countP (fun it => it.id == make_item_id appid hn tok) :=
          List.countP_pos_iff.mpr ⟨it, hmem2, beq_iff_eq.mpr hid⟩
        omega
    · rw [track_upsert, if_neg h] at hmem
      rcases List.mem_cons.mp hmem with rfl | hmem2
      · exact absurd hid h
      · have hx : (x.id == make_item_id appid hn tok) = false := by simpa using h
        rw [List.countP_cons_of_neg (fun (it : Item) => it.id == make_item_id appid hn tok) rest (by simp [hx])] at hcount
        exact ih hcount it hmem2 hid

/-! ### Claim theorem for the track upsert (C6) -/

/-- C6: tracking the same (token, appid, item name) composite twice leaves
exactly one stored item for that composite id, and that item carries the
latest target price and direction with enabled set; assuming the store
starts with at most one record for the composite (the uniqueness invariant
of the store). -/
theorem track_upsert_idempotent (items : List Item) (tok hn : String)
    (appid : ℤ) (t1 t2 : ℚ) (d1 d2 : String) (p1 p2 : Option ℚ) (n1 n2 : ℤ)
    (h : items.countP (fun it => it.id == make_item_id appid hn tok) ≤ 1) :
    ((track_upsert tok appid hn t2 d2 p2 n2
        (track_upsert tok appid hn t1 d1 p1 n1 items)).countP
          (fun it => it.id == make_item_id appid hn tok) = 1) ∧
    (∀ it ∈ track_upsert tok appid hn t2 d2 p2 n2
        (track_upsert tok appid hn t1 d1 p1 n1 items),
      it.id = make_item_id appid hn tok →
      it.target_price = t2 ∧ it.direction = d2 ∧ it.enabled = true) := by
  have h1 := track_upsert_countP tok appid hn t1 d1 p1 n1 items
  constructor
  · rw [track_upsert_countP, h1]
    omega
  · intro it hmem hid
    have := track_upsert_values tok appid hn t2 d2 p2 n2
      (track_upsert tok appid hn t1 d1 p1 n1 items) (by omega) it hmem hid
    exact ⟨this.1, this.2.1, this.2.2.1⟩

/-- C6 witness: tracking the same composite twice on an initially empty
store stores exactly one item with the latest target 20 and direction sell. -/
theorem track_upsert_idempotent_witness :
    ((track_upsert "tok" 730 "knife" 20 "sell" none 5
        (track_upsert "tok" 730 "knife" 10 "buy" none 1 [])).countP
          (fun it => it.id == make_item_id 730 "knife" "tok") = 1) ∧
    (∀ it ∈ track_upsert "tok" 730 "knife" 20 "sell" none 5
        (track_upsert "tok" 730 "knife" 10 "buy" none 1 []),
      it.id = make_item_id 730 "knife" "tok" →
      it.target_price = 20 ∧ it.direction = "sell" ∧ it.enabled = true) :=
  track_upsert_idempotent [] "tok" "knife" 730 10 20 "buy" "sell" none none 1 5
    (by decide)

/-! ### Claim theorem for untrack (C7) -/

lemma untrack_items_eq_filter (tok item_id : String) :
    ∀ items : List Item,
      untrack_items tok item_id items =
        items.filter (fun it => !(it.id == item_id && it.user_token == tok)) := by
  intro items
  induction items with
  | nil => rfl
  | cons it rest ih =>
    by_cases h : it.id = item_id ∧ it.user_token = tok
    · have hb : (it.id == item_id && it.user_token == tok) = true := by
        simp [h.1, h.2]
      rw [untrack_items, if_pos h, List.filter_cons]
      simp only [hb]
      simpa using ih
    · have hb : (it.id == item_id && it.user_token == tok) = false := by
        rcases not_and_or.mp h with h1 | h1 <;> simp [h1]
      rw [untrack_items, if_neg h, List.filter_cons]
      simp only [hb]
      simpa using ih

lemma find_user_by_token_token {token : String} {users : List UserRec} {u : UserRec}
    (h : find_user_by_token token users = some u) : u.token = token := by
  have := List.find?_some h
  simpa using this

/-- C7: an authenticated untrack removes exactly the items whose id matches
the requested id and whose owner token equals the caller token; when no
item matches, the store is returned unchanged while the call still reports
success; an item owned by another account always survives. -/
theorem api_untrack_owner_scoped (users : List UserRec) (items items2 : List Item)
    (token item_id : String)
    (h : api_untrack users items token item_id = some items2) :
    items2 = items.filter (fun it => !(it.id == item_id && it.user_token == token)) ∧
    ((∀ it ∈ items, ¬(it.id = item_id ∧ it.user_token = token)) → items2 = items) ∧
    (∀ it ∈ items, it.user_token ≠ token → it ∈ items2) := by
  rcases hf : find_user_by_token token users with _ | u
  · rw [api_untrack, hf] at h
    simp at h
  · rw [api_untrack, hf, Option.some.injEq] at h
    have htok : u.token = token := find_user_by_token_token hf
    subst h
    rw [htok, untrack_items_eq_filter]
    refine ⟨rfl, ?_, ?_⟩
    · intro hnone
      apply List.filter_eq_self.mpr
      intro it hit
      rcases not_and_or.mp (hnone it hit) with h1 | h1 <;> simp [h1]
    · intro it hit hown
      apply List.mem_filter.mpr
      exact ⟨hit, by simp [hown]⟩

/-- C7 witness: with two stored items owned by different accounts, the
owner of the first untracks it; the other account's item survives, and an
untrack of a nonexistent id leaves the store unchanged. -/
theorem api_untrack_owner_scoped_witness :
    ([{ id := "a|1|x", user_token := "a", appid := 1, hash_name := "x",
        target_price := 5, direction := "buy", enabled := true,
        last_price := none, last_checked_at := 0, last_notified_at := 0 },
      { id := "b|1|x", user_token := "b", appid := 1, hash_name := "x",
        target_price := 5, direction := "buy", enabled := true,
        last_price := none, last_checked_at := 0, last_notified_at := 0 }] : List Item).filter
      (fun it => !(it.id == "zzz" && it.user_token == "a")) =
      [{ id := "a|1|x", user_token := "a", appid := 1, hash_name := "x",
         target_price := 5, direction := "buy", enabled := true,
         last_price := none, last_checked_at := 0, last_notified_at := 0 },
       { id := "b|1|x", user_token := "b", appid := 1, hash_name := "x",
         target_price := 5, direction := "buy", enabled := true,
         last_price := none, last_checked_at := 0, last_notified_at := 0 }] := by
  have h := api_untrack_owner_scoped
    [{ tg_login := "@a", tg_username_real := none, salt := "s", pw_hash := "h",
       token := "a", tg_chat_id := none, pair_code := none,
       settings := { currency_label := "RUB", currency_code := 5,
                     language := "en", interval_min := 10 } }]
    [{ id := "a|1|x", user_token := "a", appid := 1, hash_name := "x",
       target_price := 5, direction := "buy", enabled := true,
       last_price := none, last_checked_at := 0, last_notified_at := 0 },
     { id := "b|1|x", user_token := "b", appid := 1, hash_name := "x",
       target_price := 5, direction := "buy", enabled := true,
       last_price := none, last_checked_at := 0, last_notified_at := 0 }]
    (untrack_items "a" "zzz"
      [{ id := "a|1|x", user_token := "a", appid := 1, hash_name := "x",
         target_price := 5, direction := "buy", enabled := true,
         last_price := none, last_checked_at := 0, last_notified_at := 0 },
       { id := "b|1|x", user_token := "b", appid := 1, hash_name := "x",
         target_price := 5, direction := "buy", enabled := true,
         last_price := none, last_checked_at := 0, last_notified_at := 0 }])
    "a" "zzz" rfl
  have h2 := h.2.1 (by decide)
  rw [← h.1, h2]

/-! ### Helper lemma and claim theorem for the polling loop (C8) -/

lemma polling_step_fetched (now : ℤ) (u : UserRec) (p : ℚ) (it : Item)
    (hen : it.enabled = true)
    (hchat : chatFalsy u.tg_chat_id = false)
    (hint : ¬(now - it.last_checked_at <
      (if u.settings.interval_min < 1 then 1 else u.settings.interval_min) * 60)) :
    polling_step now u (some p) it =
      if now - it.last_notified_at < 3600 then
        ({ it with last_checked_at := now, last_price := some p }, false)
      else if it.direction = "buy" then
        (if p ≤ it.target_price then
          ({ { it with last_checked_at := now, last_price := some p } with
              last_notified_at := now }, true)
         else ({ it with last_checked_at := now, last_price := some p }, false))
      else if it.direction = "sell" then
        (if it.target_price ≤ p then
          ({ { it with last_checked_at := now, last_price := some p } with
              last_notified_at := now }, true)
         else ({ it with last_checked_at := now, last_price := some p }, false))
      else ({ it with last_checked_at := now, last_price := some p }, false) := by
  simp only [polling_step, hen, Bool.not_true, Bool.false_eq_true, if_false, hchat,
    if_neg hint]

lemma polling_step_skip_interval (now : ℤ) (u : UserRec) (price : Option ℚ)
    (it : Item) (hen : it.enabled = true)
    (hchat : chatFalsy u.tg_chat_id = false)
    (hint2 : now - it.last_checked_at <
      (if u.settings.interval_min < 1 then 1 else u.settings.interval_min) * 60) :
    polling_step now u price it = (it, false) := by
  simp only [polling_step, hen, Bool.not_true, Bool.false_eq_true, if_false, hchat,
    if_pos hint2]

lemma polling_step_cooldown (now : ℤ) (u : UserRec) (p : ℚ) (it : Item)
    (hen : it.enabled = true)
    (hchat : chatFalsy u.tg_chat_id = false)
    (hint : ¬(now - it.last_checked_at <
      (if u.settings.interval_min < 1 then 1 else u.settings.interval_min) * 60))
    (hcool : now - it.last_notified_at < 3600) :
    (polling_step now u (some p) it).2 = false := by
  rw [polling_step_fetched now u p it hen hchat hint, if_pos hcool]

lemma polling_step_notified_fields (now : ℤ) (u : UserRec) (p : ℚ) (it : Item)
    (hen : it.enabled = true)
    (hchat : chatFalsy u.tg_chat_id = false)
    (hint : ¬(now - it.last_checked_at <
      (if u.settings.interval_min < 1 then 1 else u.settings.interval_min) * 60))
    (h : (polling_step now u (some p) it).2 = true) :
    (polling_step now u (some p) it).1.enabled = it.enabled ∧
    (polling_step now u (some p) it).1.last_checked_at = now ∧
    (polling_step now u (some p) it).1.last_notified_at = now ∧
    (polling_step now u (some p) it).1.direction = it.direction ∧
    (polling_step now u (some p) it).1.target_price = it.target_price := by
  rw [polling_step_fetched now u p it hen hchat hint] at h ⊢
  split_ifs at h ⊢ <;> simp_all

/-- C8: in a polling cycle whose fetch for an item succeeded (and which
reached the fetch: the item is enabled, the owner has a chat linkage, and
the re-check interval has elapsed), no notification is sent when fewer than
3600 seconds have elapsed since the item's last notification; otherwise a
notification is sent exactly when price is at most the target for buy or at
least the target for sell; the last-notified timestamp is set to the cycle
time on notification; hence a second crossing within the 3600s window gives
no second notification, and a crossing after the window gives one. -/
theorem polling_cooldown_threshold (now : ℤ) (u : UserRec) (it : Item) (p : ℚ)
    (hen : it.enabled = true)
    (hchat : chatFalsy u.tg_chat_id = false)
    (hint : ¬(now - it.last_checked_at <
      (if u.settings.interval_min < 1 then 1 else u.settings.interval_min) * 60)) :
    (now - it.last_notified_at < 3600 →
      (polling_step now u (some p) it).2 = false ∧
      (polling_step now u (some p) it).1.last_notified_at = it.last_notified_at) ∧
    (3600 ≤ now - it.last_notified_at →
      ((polling_step now u (some p) it).2 = true ↔
        ((it.direction = "buy" ∧ p ≤ it.target_price) ∨
         (it.direction = "sell" ∧ it.target_price ≤ p)))) ∧
    ((polling_step now u (some p) it).2 = true →
      (polling_step now u (some p) it).1.last_notified_at = now) ∧
    (∀ now2 p2, (polling_step now u (some p) it).2 = true → now2 - now < 3600 →
      (polling_step now2 u (some p2) (polling_step now u (some p) it).1).2 = false) ∧
    (∀ now3 p3, (polling_step now u (some p) it).2 = true →
      3600 ≤ now3 - now →
      ¬(now3 - now <
        (if u.settings.interval_min < 1 then 1 else u.settings.interval_min) * 60) →
      ((it.direction = "buy" ∧ p3 ≤ it.target_price) ∨
       (it.direction = "sell" ∧ it.target_price ≤ p3)) →
      (polling_step now3 u (some p3) (polling_step now u (some p) it).1).2 = true) := by
  have hstep := polling_step_fetched now u p it hen hchat hint
  refine ⟨?_, ?_, ?_, ?_, ?_⟩
  · intro hcool
    rw [hstep, if_pos hcool]
    exact ⟨rfl, rfl⟩
  · intro h36
    rw [hstep, if_neg (by omega)]
    by_cases hbuy : it.direction = "buy"
    · rw [if_pos hbuy]
      by_cases hth : p ≤ it.target_price
      · rw [if_pos hth]
        exact ⟨fun _ => Or.inl ⟨hbuy, hth⟩, fun _ => rfl⟩
      · rw [if_neg hth]
        refine ⟨fun hf => absurd hf (by simp), fun hcr => ?_⟩
        exfalso
        rcases hcr with ⟨hd, hp⟩ | ⟨hd, hp⟩
        · exact hth hp
        · rw [hbuy] at hd
          exact absurd hd (by decide)
    · rw [if_neg hbuy]
      by_cases hsell : it.direction = "sell"
      · rw [if_pos hsell]
        by_cases hth : it.target_price ≤ p
        · rw [if_pos hth]
          exact ⟨fun _ => Or.inr ⟨hsell, hth⟩, fun _ => rfl⟩
        · rw [if_neg hth]
          refine ⟨fun hf => absurd hf (by simp), fun hcr => ?_⟩
          exfalso
          rcases hcr with ⟨hd, hp⟩ | ⟨hd, hp⟩
          · exact hbuy hd
          · exact hth hp
      · rw [if_neg hsell]
        refine ⟨fun hf => absurd hf (by simp), fun hcr => ?_⟩
        exfalso
        rcases hcr with ⟨hd, hp⟩ | ⟨hd, hp⟩
        · exact hbuy hd
        · exact hsell hd
  · intro hno
    exact (polling_step_notified_fields now u p it hen hchat hint hno).2.2.1
  · intro now2 p2 hno hwin
    obtain ⟨f_en, f_chk, f_not, f_dir, f_tgt⟩ :=
      polling_step_notified_fields now u p it hen hchat hint hno
    by_cases hint2 : now2 - (polling_step now u (some p) it).1.last_checked_at <
        (if u.settings.interval_min < 1 then 1 else u.settings.interval_min) * 60
    · rw [polling_step_skip_interval now2 u (some p2) (polling_step now u (some p) it).1
        (by rw [f_en]; exact hen) hchat hint2]
    · exact polling_step_cooldown now2 u p2 (polling_step now u (some p) it).1
        (by rw [f_en]; exact hen) hchat hint2 (by rw [f_not]; omega)
  · intro now3 p3 hno h36 hint3 hcross
    obtain ⟨f_en, f_chk, f_not, f_dir, f_tgt⟩ :=
      polling_step_notified_fields now u p it hen hchat hint hno
    rw [polling_step_fetched now3 u p3 (polling_step now u (some p) it).1
        (by rw [f_en]; exact hen) hchat (by rw [f_chk]; exact hint3),
      if_neg (by rw [f_not]; omega)]
    rcases hcross with ⟨hd, hp3⟩ | ⟨hd, hp3⟩
    · rw [if_pos (by rw [f_dir]; exact hd), if_pos (by rw [f_tgt]; exact hp3)]
    · rw [if_neg (by rw [f_dir, hd]; decide), if_pos (by rw [f_dir]; exact hd),
        if_pos (by rw [f_tgt]; exact hp3)]

/-- C8 witness: a buy item with target 10 fetched at price 5 at time 10000,
3600 or more seconds after its last notification at 0, notifies. -/
theorem polling_cooldown_threshold_witness :
    (polling_step 10000
        { tg_login := "@a", tg_username_real := none, salt := "s", pw_hash := "h",
          token := "a", tg_chat_id := some 7, pair_code := none,
          settings := { currency_label := "RUB", currency_code := 5,
                        language := "en", interval_min := 10 } }
        (some 5)
        { id := "a|1|x", user_token := "a", appid := 1, hash_name := "x",
          target_price := 10, direction := "buy", enabled := true,
          last_price := none, last_checked_at := 0, last_notified_at := 0 }).2 = true :=
  ((polling_cooldown_threshold 10000
      { tg_login := "@a", tg_username_real := none, salt := "s", pw_hash := "h",
        token := "a", tg_chat_id := some 7, pair_code := none,
        settings := { currency_label := "RUB", currency_code := 5,
                      language := "en", interval_min := 10 } }
      { id := "a|1|x", user_token := "a", appid := 1, hash_name := "x",
        target_price := 10, direction := "buy", enabled := true,
        last_price := none, last_checked_at := 0, last_notified_at := 0 }
      5 rfl (by decide) (by decide)).2.1 (by decide)).mpr
    (Or.inl ⟨rfl, by decide⟩)

/-! ### Claim theorem for re-tracking an existing item (C10) -/

lemma track_upsert_filter_refresh (tok : String) (appid : ℤ) (hn : String)
    (t : ℚ) (d : String) (p : Option ℚ) (n : ℤ) (it0 : Item) :
    ∀ items : List Item,
      items.filter (fun x => x.id == make_item_id appid hn tok) = [it0] →
      (track_upsert tok appid hn t d p n items).filter
          (fun x => x.id == make_item_id appid hn tok) = [refresh_item it0 t d p n] := by
  intro items
  induction items with
  | nil => intro h; simp at h
  | cons x rest ih =>
    intro h
    by_cases hx : x.id = make_item_id appid hn tok
    · have hb : (x.id == make_item_id appid hn tok) = true := beq_iff_eq.mpr hx
      rw [List.filter_cons, if_pos hb] at h
      obtain ⟨rfl, hrest⟩ := List.cons.inj h
      rw [track_upsert, if_pos hx, List.filter_cons,
        if_pos (show ((refresh_item x t d p n).id == make_item_id appid hn tok) = true by
          rw [refresh_item_id]; exact hb),
        hrest]
    · have hb : (x.id == make_item_id appid hn tok) = false := by simpa using hx
      rw [List.filter_cons, if_neg (by simp [hb])] at h
      rw [track_upsert, if_neg hx, List.filter_cons, if_neg (by simp [hb])]
      exact ih h

/-- C10: re-tracking an already tracked composite overwrites target,
direction, enabled, last_price and last_checked_at of the stored item but
preserves its last_notified_at, so the notification cooldown from a
previous notification keeps applying to the refreshed item in the polling
loop. -/
theorem track_refresh_preserves_last_notified (items : List Item) (it0 : Item)
    (tok hn : String) (appid : ℤ) (t : ℚ) (d : String) (p : Option ℚ) (now : ℤ)
    (h : items.filter (fun x => x.id == make_item_id appid hn tok) = [it0]) :
    ∃ j : Item,
      (track_upsert tok appid hn t d p now items).filter
          (fun x => x.id == make_item_id appid hn tok) = [j] ∧
      j.last_notified_at = it0.last_notified_at ∧
      j.target_price = t ∧ j.direction = d ∧ j.enabled = true ∧
      j.last_price = p ∧ j.last_checked_at = now ∧
      (∀ now2 (u : UserRec) (p2 : ℚ), chatFalsy u.tg_chat_id = false →
        ¬(now2 - j.last_checked_at <
          (if u.settings.interval_min < 1 then 1 else u.settings.interval_min) * 60) →
        now2 - it0.last_notified_at < 3600 →
        (polling_step now2 u (some p2) j).2 = false) := by
  refine ⟨refresh_item it0 t d p now,
    track_upsert_filter_refresh tok appid hn t d p now it0 items h,
    rfl, rfl, rfl, rfl, rfl, rfl, ?_⟩
  intro now2 u p2 hchat hint hcool
  exact polling_step_cooldown now2 u p2 (refresh_item it0 t d p now) rfl hchat hint hcool

/-- C10 witness: re-tracking a concrete stored item whose last notification
was at time 100 keeps last_notified_at at 100 under the new target. -/
theorem track_refresh_preserves_last_notified_witness :
    ∃ j : Item,
      (track_upsert "a" 1 "x" 20 "sell" (some 3) 500
          [{ id := "a|1|x", user_token := "a", appid := 1, hash_name := "x",
             target_price := 5, direction := "buy", enabled := true,
             last_price := none, last_checked_at := 0,
             last_notified_at := 100 }]).filter
          (fun x => x.id == make_item_id 1 "x" "a") = [j] ∧
      j.last_notified_at =
        ({ id := "a|1|x", user_token := "a", appid := 1, hash_name := "x",
           target_price := 5, direction := "buy", enabled := true,
           last_price := none, last_checked_at := 0,
           last_notified_at := 100 } : Item).last_notified_at ∧
      j.target_price = 20 ∧ j.direction = "sell" ∧ j.enabled = true ∧
      j.last_price = some 3 ∧ j.last_checked_at = 500 ∧
      (∀ now2 (u : UserRec) (p2 : ℚ), chatFalsy u.tg_chat_id = false →
        ¬(now2 - j.last_checked_at <
          (if u.settings.interval_min < 1 then 1 else u.settings.interval_min) * 60) →
        now2 - ({ id := "a|1|x", user_token := "a", appid := 1, hash_name := "x",
                  target_price := 5, direction := "buy", enabled := true,
                  last_price := none, last_checked_at := 0,
                  last_notified_at := 100 } : Item).last_notified_at < 3600 →
        (polling_step now2 u (some p2) j).2 = false) :=
  track_refresh_preserves_last_notified
    [{ id := "a|1|x", user_token := "a", appid := 1, hash_name := "x",
       target_price := 5, direction := "buy", enabled := true,
       last_price := none, last_checked_at := 0, last_notified_at := 100 }]
    { id := "a|1|x", user_token := "a", appid := 1, hash_name := "x",
      target_price := 5, direction := "buy", enabled := true,
      last_price := none, last_checked_at := 0, last_notified_at := 100 }
    "a" "x" 1 20 "sell" (some 3) 500 (by decide)

/-! ### Claim theorems for the polling merge (C9) -/

lemma dict_of_items_id {l : List Item} {k : String} {s : Item}
    (h : dict_of_items l k = some s) : s.id = k := by
  have hmem := List.mem_of_getLast?_eq_some h
  have := List.mem_filter.mp hmem
  simpa using this.2

/-- C9 counterexample: an authoritative item whose target price was
concurrently changed to 100 and a snapshot item with the same id carrying
the stale target 50: the merge replaces the whole authoritative record with
the snapshot record, so the target price becomes 50 instead of staying 100,
contradicting the claim that only last_checked_at, last_price and
last_notified_at are written back. -/
theorem polling_merge_cex :
    merge_items
        [{ id := "a|1|x", user_token := "a", appid := 1, hash_name := "x",
           target_price := 100, direction := "buy", enabled := true,
           last_price := none, last_checked_at := 0, last_notified_at := 0 }]
        [{ id := "a|1|x", user_token := "a", appid := 1, hash_name := "x",
           target_price := 50, direction := "buy", enabled := true,
           last_price := some 40, last_checked_at := 10, last_notified_at := 0 }] =
      [{ id := "a|1|x", user_token := "a", appid := 1, hash_name := "x",
         target_price := 50, direction := "buy", enabled := true,
         last_price := some 40, last_checked_at := 10, last_notified_at := 0 }] ∧
    ((50 : ℚ) ≠ (100 : ℚ)) := by
  constructor
  · decide
  · decide

/-- C9 amended: the merge at the end of a polling cycle replaces each
authoritative item whose id appears in the snapshot dict with the entire
snapshot item (so the snapshot values of every field, including
target_price, direction and enabled as of snapshot time, overwrite
concurrent mutations); authoritative items whose id is not in the snapshot
are kept unchanged; every merged item carries an id present in the
authoritative store, so snapshot items whose id is no longer present there
are silently dropped. -/
theorem polling_merge_replaces_whole_item :
    (∀ (auth snap : List Item) (i : Nat) (it s : Item),
      auth[i]? = some it → dict_of_items snap it.id = some s →
      (merge_items auth snap)[i]? = some s ∧ s.id = it.id) ∧
    (∀ (auth snap : List Item) (i : Nat) (it : Item),
      auth[i]? = some it → dict_of_items snap it.id = none →
      (merge_items auth snap)[i]? = some it) ∧
    (∀ (auth snap : List Item) (m : Item), m ∈ merge_items auth snap →
      ∃ a ∈ auth, a.id = m.id) := by
  refine ⟨?_, ?_, ?_⟩
  · intro auth snap i it s hi hd
    constructor
    · rw [merge_items, List.getElem?_map, hi]
      simp [hd]
    · exact dict_of_items_id hd
  · intro auth snap i it hi hd
    rw [merge_items, List.getElem?_map, hi]
    simp [hd]
  · intro auth snap m hm
    rw [merge_items] at hm
    obtain ⟨a, ha, heq⟩ := List.mem_map.mp hm
    refine ⟨a, ha, ?_⟩
    rcases hd : dict_of_items snap a.id with _ | s
    · rw [hd] at heq
      have heq2 : a = m := heq
      rw [heq2]
    · rw [hd] at heq
      have heq2 : s = m := heq
      rw [← heq2]
      exact (dict_of_items_id hd).symm

/-- C9 witness: the amended merge behaviour on the concrete one-item
stores of the counterexample: the snapshot record replaces the whole
authoritative record at position 0. -/
theorem polling_merge_replaces_whole_item_witness :
    (merge_items
        [{ id := "a|1|x", user_token := "a", appid := 1, hash_name := "x",
           target_price := 100, direction := "buy", enabled := true,
           last_price := none, last_checked_at := 0, last_notified_at := 0 }]
        [{ id := "a|1|x", user_token := "a", appid := 1, hash_name := "x",
           target_price := 50, direction := "buy", enabled := true,
           last_price := some 40, last_checked_at := 10,
           last_notified_at := 0 }])[0]? =
      some { id := "a|1|x", user_token := "a", appid := 1, hash_name := "x",
             target_price := 50, direction := "buy", enabled := true,
             last_price := some 40, last_checked_at := 10,
             last_notified_at := 0 } :=
  (polling_merge_replaces_whole_item.1
    [{ id := "a|1|x", user_token := "a", appid := 1, hash_name := "x",
       target_price := 100, direction := "buy", enabled := true,
       last_price := none, last_checked_at := 0, last_notified_at := 0 }]
    [{ id := "a|1|x", user_token := "a", appid := 1, hash_name := "x",
       target_price := 50, direction := "buy", enabled := true,
       last_price := some 40, last_checked_at := 10, last_notified_at := 0 }]
    0
    { id := "a|1|x", user_token := "a", appid := 1, hash_name := "x",
      target_price := 100, direction := "buy", enabled := true,
      last_price := none, last_checked_at := 0, last_notified_at := 0 }
    { id := "a|1|x", user_token := "a", appid := 1, hash_name := "x",
      target_price := 50, direction := "buy", enabled := true,
      last_price := some 40, last_checked_at := 10, last_notified_at := 0 }
    (by decide) (by decide)).1
